import Mathlib

/-!
Verification of the PANDA gene-regulatory-network inference core
(`netZooPy/panda/panda.py`) against its natural-language specification.

Matrices are shallowly embedded as functions `ℕ → ℕ → ℝ` together with
explicit dimension arguments; all sums run over `Finset.range`.  IEEE NaN
values, which the Python code produces by dividing a zero-variance-centred
entry by a zero standard deviation and later detects with `np.isnan`, are
embedded as `Option ℝ` with `none` playing the role of NaN.  Division of
reals by a zero divisor yields `none`; in every code path of this program a
zero divisor comes with a zero numerator (see `colStd_eq_zero_center`), so
this coincides with IEEE `0/0 = NaN`.
-/

open Finset

/-- Dense real matrix, indexed by natural numbers; the dimensions travel as
separate arguments exactly where the NumPy code keeps a `shape`. -/
abbrev RMat := ℕ → ℕ → ℝ

/-- Matrix with possibly-NaN entries (`none` = NaN). -/
abbrev NMat := ℕ → ℕ → Option ℝ

/-- Real division producing NaN (`none`) on a zero divisor, as the zscore
computations in `_normalize_network` do (their numerators vanish whenever
the divisor does, so IEEE gives `0/0 = NaN`). -/
noncomputable def ofDiv (a b : ℝ) : Option ℝ :=
  if b = 0 then none else some (a / b)

/-- NaN-propagating addition. -/
def optAdd : Option ℝ → Option ℝ → Option ℝ
  | some a, some b => some (a + b)
  | _, _ => none

/-- NaN-propagating division by a (nonzero) scalar constant such as √2. -/
noncomputable def optDivByC (v : Option ℝ) (c : ℝ) : Option ℝ :=
  v.map (fun a => a / c)

/-- NaN-propagating multiplication by a scalar constant. -/
noncomputable def optScale (c : ℝ) (v : Option ℝ) : Option ℝ :=
  v.map (fun a => c * a)

/-- Column mean of an `m × n` matrix (mean over the row index), as used by
`scipy.stats.zscore(x, axis=0)`. -/
noncomputable def colMean (m : ℕ) (x : RMat) (j : ℕ) : ℝ :=
  (∑ i ∈ range m, x i j) / m

/-- Population standard deviation of column `j` (ddof = 0, the
`scipy.stats.zscore` default). -/
noncomputable def colStd (m : ℕ) (x : RMat) (j : ℕ) : ℝ :=
  Real.sqrt ((∑ i ∈ range m, (x i j - colMean m x j) ^ 2) / m)

/-- Row mean of an `m × n` matrix (mean over the column index), as used by
`scipy.stats.zscore(x, axis=1)`. -/
noncomputable def rowMean (n : ℕ) (x : RMat) (i : ℕ) : ℝ :=
  (∑ j ∈ range n, x i j) / n

/-- Population standard deviation of row `i`. -/
noncomputable def rowStd (n : ℕ) (x : RMat) (i : ℕ) : ℝ :=
  Real.sqrt ((∑ j ∈ range n, (x i j - rowMean n x i) ^ 2) / n)

/-- Whole-matrix mean, `np.mean(x)`. -/
noncomputable def totalMean (m n : ℕ) (x : RMat) : ℝ :=
  (∑ i ∈ range m, ∑ j ∈ range n, x i j) / (m * n)

/-- Whole-matrix population standard deviation, `np.std(x)`. -/
noncomputable def totalStd (m n : ℕ) (x : RMat) : ℝ :=
  Real.sqrt ((∑ i ∈ range m, ∑ j ∈ range n, (x i j - totalMean m n x) ^ 2) / (m * n))

/-- `norm_col = zscore(x, axis=0)`: column-wise z-score, NaN on a
zero-variance column. -/
noncomputable def norm_col (m : ℕ) (x : RMat) : NMat :=
  fun i j => ofDiv (x i j - colMean m x j) (colStd m x j)

/-- Row-wise z-score `zscore(x, axis=1)`, NaN on a zero-variance row. -/
noncomputable def norm_row_indep (n : ℕ) (x : RMat) : NMat :=
  fun i j => ofDiv (x i j - rowMean n x i) (rowStd n x i)

/-- `norm_row`: for a square matrix the code reuses `norm_col.T`
(symmetry shortcut), otherwise it z-scores the rows independently. -/
noncomputable def norm_row (m n : ℕ) (x : RMat) : NMat :=
  if m = n then fun i j => norm_col m x j i else norm_row_indep n x

/-- `norm_total = (x - np.mean(x)) / np.std(x)`: whole-matrix z-score. -/
noncomputable def norm_total (m n : ℕ) (x : RMat) : NMat :=
  fun i j => ofDiv (x i j - totalMean m n x) (totalStd m n x)

/-- `Panda._normalize_network`.  The base value `(norm_col + norm_row)/√2`
is overwritten, in order, on the NaN mask of `norm_col`, then on the NaN
mask of `norm_row`, then on the intersection of the two masks; the final
per-entry value is the last write, reproduced here as an if-chain. -/
noncomputable def _normalize_network (m n : ℕ) (x : RMat) : NMat :=
  fun i j =>
    if (norm_col m x i j).isNone ∧ (norm_row m n x i j).isNone then
      optDivByC (optScale 2 (norm_total m n x i j)) (Real.sqrt 2)
    else if (norm_row m n x i j).isNone then
      optDivByC (optAdd (norm_col m x i j) (norm_total m n x i j)) (Real.sqrt 2)
    else if (norm_col m x i j).isNone then
      optDivByC (optAdd (norm_row m n x i j) (norm_total m n x i j)) (Real.sqrt 2)
    else
      optDivByC (optAdd (norm_col m x i j) (norm_row m n x i j)) (Real.sqrt 2)

/-- Plain-real column z-score, the value `norm_col` carries when the column
has nonzero variance. -/
noncomputable def zscoreCol (m : ℕ) (x : RMat) (i j : ℕ) : ℝ :=
  (x i j - colMean m x j) / colStd m x j

/-- Plain-real row z-score. -/
noncomputable def zscoreRow (n : ℕ) (x : RMat) (i j : ℕ) : ℝ :=
  (x i j - rowMean n x i) / rowStd n x i

/-- Justification of the NaN model: when a column's standard deviation is
zero every entry of that column equals the column mean, so the z-score
numerator is zero and IEEE arithmetic indeed produces `0/0 = NaN`. -/
theorem colStd_eq_zero_center (m : ℕ) (x : RMat) (i j : ℕ)
    (him : i < m) (h : colStd m x j = 0) : x i j - colMean m x j = 0 := by
  have hm : 0 < (m : ℝ) := by
    exact_mod_cast Nat.lt_of_le_of_lt (Nat.zero_le i) him
  have hnum : (∑ i ∈ range m, (x i j - colMean m x j) ^ 2) / m ≤ 0 :=
    Real.sqrt_eq_zero'.mp h
  have hnn : 0 ≤ ∑ i ∈ range m, (x i j - colMean m x j) ^ 2 :=
    Finset.sum_nonneg fun _ _ => sq_nonneg _
  have hz : (∑ i ∈ range m, (x i j - colMean m x j) ^ 2) = 0 := by
    have hle : (∑ i ∈ range m, (x i j - colMean m x j) ^ 2) ≤ 0 * m :=
      (div_le_iff₀ hm).mp hnum
    linarith
  have hterm : (x i j - colMean m x j) ^ 2 = 0 := by
    have := (Finset.sum_eq_zero_iff_of_nonneg (fun _ _ => sq_nonneg _)).mp hz i
      (Finset.mem_range.mpr him)
    exact this
  exact pow_eq_zero_iff two_ne_zero |>.mp hterm

/-- `t_function(x)` (self mode): `a = x @ x.T`, `s[i] = (x**2).sum(axis=1)`,
`a[i,j] /= sqrt(s[j] + s[i] - |a[i,j]|)`.  `k` is the feature (column)
count of `x`. -/
noncomputable def t_function_self (k : ℕ) (x : RMat) : RMat :=
  fun i j =>
    (∑ t ∈ range k, x i t * x j t) /
      Real.sqrt ((∑ t ∈ range k, x j t ^ 2) + (∑ t ∈ range k, x i t ^ 2) -
        |∑ t ∈ range k, x i t * x j t|)

/-- `t_function(x, y)` (cross mode): `a = x @ y`,
`a[i,j] /= sqrt((y**2).sum(axis=0)[j] + (x**2).sum(axis=1)[i] - |a[i,j]|)`.
`k` is the shared inner dimension (columns of `x` = rows of `y`). -/
noncomputable def t_function_cross (k : ℕ) (x y : RMat) : RMat :=
  fun i j =>
    (∑ t ∈ range k, x i t * y t j) /
      Real.sqrt ((∑ t ∈ range k, y t j ^ 2) + (∑ t ∈ range k, x i t ^ 2) -
        |∑ t ∈ range k, x i t * y t j|)

/-- Mean of row `i` of an `n × n` matrix with the diagonal entry excluded
(the code fills the diagonal with NaN and takes `np.nanstd(., 1)`). -/
noncomputable def offDiagMean (n : ℕ) (a : RMat) (i : ℕ) : ℝ :=
  (∑ j ∈ (range n).erase i, a i j) / (n - 1)

/-- Population standard deviation of row `i` with the diagonal excluded,
`np.nanstd` over the `n - 1` remaining entries. -/
noncomputable def offDiagStd (n : ℕ) (a : RMat) (i : ℕ) : ℝ :=
  Real.sqrt ((∑ j ∈ (range n).erase i, (a i j - offDiagMean n a i) ^ 2) / (n - 1))

/-- `update_diagonal(diagonal_matrix, num, alpha, step)`: replace the
diagonal with `nanstd(offdiag row) * num * exp(2*alpha*step)`. -/
noncomputable def update_diagonal (n : ℕ) (a : RMat) (num : ℕ) (alpha : ℝ)
    (step : ℕ) : RMat :=
  fun i j =>
    if i = j then offDiagStd n a i * num * Real.exp (2 * alpha * step)
    else a i j

/-- `W = 0.5 * (t_function(ppi_matrix, motif_matrix) +
t_function(motif_matrix, correlation_matrix))` for a `T × G` motif matrix. -/
noncomputable def consensusW (T G : ℕ) (P M C : RMat) : RMat :=
  fun i j => 0.5 * (t_function_cross T P M i j + t_function_cross G M C i j)

/-- `hamming = np.abs(motif_matrix - W).mean()` over the `T × G` entries. -/
noncomputable def meanAbsDiff (T G : ℕ) (A B : RMat) : ℝ :=
  (∑ i ∈ range T, ∑ j ∈ range G, |A i j - B i j|) / (T * G)

/-- The in-place blend `A = (1 - alpha) * A + alpha * B`. -/
noncomputable def blend (alpha : ℝ) (A B : RMat) : RMat :=
  fun i j => (1 - alpha) * A i j + alpha * B i j

/-- Transpose of an `ℕ`-indexed matrix. -/
def trMat (A : RMat) : RMat := fun i j => A j i

/-- One pass of the `while` body of `panda_loop` (CPU path): compute the
consensus `W` and the new hamming metric, always blend the motif matrix,
and update the PPI and correlation matrices only when the new metric is
still above the tolerance.  Returns the metric together with the new
`(M, P, C)`. -/
noncomputable def pandaBody (T G : ℕ) (alpha : ℝ) (step : ℕ)
    (M P C : RMat) : ℝ × RMat × RMat × RMat :=
  let W := consensusW T G P M C
  let h := meanAbsDiff T G M W
  let M' := blend alpha M W
  if h > 0.001 then
    let ppi := update_diagonal T (t_function_self G M') T alpha step
    let P' := blend alpha P ppi
    let motif := update_diagonal G (t_function_self T (trMat M')) G alpha step
    let C' := blend alpha C motif
    (h, M', P', C')
  else
    (h, M', P, C)

/-- Fuel-indexed unfolding of `while hamming > 0.001`.  The Python loop has
no iteration cap; `none` means the given fuel was exhausted with the metric
still above the tolerance on every check. -/
noncomputable def loopGo (T G : ℕ) (alpha : ℝ) :
    ℕ → ℝ → ℕ → RMat → RMat → RMat → Option (RMat × RMat × RMat)
  | fuel, h, step, M, P, C =>
    if h > 0.001 then
      match fuel with
      | 0 => none
      | fuel' + 1 =>
        let r := pandaBody T G alpha step M P C
        loopGo T G alpha fuel' r.1 (step + 1) r.2.1 r.2.2.1 r.2.2.2
    else
      some (M, P, C)

/-- `panda_loop(correlation_matrix, motif_matrix, ppi_matrix)` with the
initializations `step = 0`, `hamming = 1`; the full terminal state is kept
(the Python function returns its motif component). -/
noncomputable def panda_loop (T G : ℕ) (alpha : ℝ) (fuel : ℕ)
    (M P C : RMat) : Option (RMat × RMat × RMat) :=
  loopGo T G alpha fuel 1 0 M P C

/-- The state `(hamming, step, M, P, C)` reached after `k` passes of the
loop body, starting from an arbitrary state. -/
noncomputable def iterFrom (T G : ℕ) (alpha : ℝ) (h : ℝ) (step : ℕ)
    (M P C : RMat) : ℕ → ℝ × ℕ × RMat × RMat × RMat
  | 0 => (h, step, M, P, C)
  | k + 1 =>
    let s := iterFrom T G alpha h step M P C k
    let r := pandaBody T G alpha s.2.1 s.2.2.1 s.2.2.2.1 s.2.2.2.2
    (r.1, s.2.1 + 1, r.2)

/-- The `k`-th state of the iteration started from the initializations of
`panda_loop` (`hamming = 1`, `step = 0`). -/
noncomputable def loopIter (T G : ℕ) (alpha : ℝ) (M P C : RMat) :
    ℕ → ℝ × ℕ × RMat × RMat × RMat :=
  iterFrom T G alpha 1 0 M P C

/-- The convergence metric observed at the `k`-th check of the loop
condition (`k = 0` is the initialization `hamming = 1`). -/
noncomputable def hammingTrace (T G : ℕ) (alpha : ℝ) (M P C : RMat) (k : ℕ) : ℝ :=
  (loopIter T G alpha M P C k).1

/-- The metric stays above the tolerance at every check up to `fuel`. -/
def staysAbove (T G : ℕ) (alpha : ℝ) (M P C : RMat) (fuel : ℕ) : Prop :=
  ∀ k, k ≤ fuel → hammingTrace T G alpha M P C k > 0.001

/-- A `(row-label, col-label, weight)` triple of the motif or PPI table. -/
abbrev Triple := ℕ × ℕ × ℝ

/-- `sorted(set(l))` / `sorted(np.unique(l))`: the sorted list of distinct
elements. -/
def sortedDedup (l : List ℕ) : List ℕ :=
  Finset.sort (· ≤ ·) l.toFinset

/-- `self.motif_tfs = sorted(set(self.motif_data[0]))`. -/
def motifTfs (md : List Triple) : List ℕ :=
  sortedDedup (md.map (fun t => t.1))

/-- `self.motif_genes = sorted(set(self.motif_data[1]))`. -/
def motifGenes (md : List Triple) : List ℕ :=
  sortedDedup (md.map (fun t => t.2.1))

/-- `self.ppi_tfs = sorted(set(pd.concat([ppi_data[0], ppi_data[1]])))`. -/
def ppiTfs (pd : List Triple) : List ℕ :=
  sortedDedup (pd.map (fun t => t.1) ++ pd.map (fun t => t.2.1))

/-- Union mode: `self.gene_names = sorted(np.unique(motif_genes +
expression_genes))`. -/
def unionGeneNames (md : List Triple) (expressionGenes : List ℕ) : List ℕ :=
  sortedDedup (motifGenes md ++ expressionGenes)

/-- Union mode: `self.unique_tfs = sorted(np.unique(ppi_tfs + motif_tfs))`. -/
def unionUniqueTfs (pd md : List Triple) : List ℕ :=
  sortedDedup (ppiTfs pd ++ motifTfs md)

/-- `{x: i for i, x in enumerate(l)}.get(x, 0)`: index of a label in the
canonical (duplicate-free) sequence, defaulting to 0 for an absent label. -/
def idxGet0 (l : List ℕ) (x : ℕ) : ℕ :=
  if x ∈ l then l.indexOf x else 0

/-- One fancy-indexed assignment `A[i, j] = w` (for repeated target cells
NumPy keeps the last write, which a left fold reproduces). -/
def writeEntry (A : RMat) (i j : ℕ) (w : ℝ) : RMat :=
  fun i' j' => if i' = i ∧ j' = j then w else A i' j'

/-- `np.identity`. -/
def identityMat : RMat := fun i j => if i = j then 1 else 0

/-- `self.motif_matrix_unnormalized`: zeros of shape
`(num_tfs, num_genes)`, then `ravel()[idx] = motif_data[2]` with
`idx_tfs = [tf2idx.get(x, 0) ...]`, `idx_genes = [gene2idx.get(x, 0) ...]`. -/
def motif_matrix_unnormalized (tfs genes : List ℕ) (md : List Triple) : RMat :=
  md.foldl
    (fun A t => writeEntry A (idxGet0 tfs t.1) (idxGet0 genes t.2.1) t.2.2)
    (fun _ _ => 0)

/-- `self.ppi_matrix`: identity of size `num_tfs`, then all forward writes
`A[idx_tf1, idx_tf2] = w`, then all symmetric writes
`A[idx_tf2, idx_tf1] = w`, in table order. -/
def ppi_matrix_build (tfs : List ℕ) (pd : List Triple) : RMat :=
  let A1 := pd.foldl
    (fun A t => writeEntry A (idxGet0 tfs t.1) (idxGet0 tfs t.2.1) t.2.2)
    identityMat
  pd.foldl
    (fun A t => writeEntry A (idxGet0 tfs t.2.1) (idxGet0 tfs t.1) t.2.2)
    A1

/-- One row assignment `A[i, :] = v` of the expression realignment. -/
def writeRow (A : RMat) (i : ℕ) (v : ℕ → ℝ) : RMat :=
  fun i' j => if i' = i then v j else A i' j

/-- Lines 317-319: `expression = zeros((num_genes, nsamples))`;
`idx_geneEx = [gene2idx.get(x, 0) for x in expression_genes]`;
`expression[idx_geneEx, :] = expression_data.values` (last write wins). -/
def alignExpression (gene_names expression_genes : List ℕ) (E : RMat) : RMat :=
  (expression_genes.enum).foldl
    (fun A rx => writeRow A (idxGet0 gene_names rx.2) (fun k => E rx.1 k))
    (fun _ _ => 0)

/-- `np.cov` row covariance (ddof = 1) as used inside `np.corrcoef`. -/
noncomputable def rowCov (s : ℕ) (E : RMat) (i j : ℕ) : ℝ :=
  (∑ k ∈ range s, (E i k - rowMean s E i) * (E j k - rowMean s E j)) / (s - 1)

/-- One `np.corrcoef` entry `cov[i,j] / (sqrt(cov[i,i]) * sqrt(cov[j,j]))`,
NaN on a zero-variance row. -/
noncomputable def corrEntry (s : ℕ) (E : RMat) (i j : ℕ) : Option ℝ :=
  ofDiv (rowCov s E i j) (Real.sqrt (rowCov s E i i) * Real.sqrt (rowCov s E j j))

/-- Lines 330-332: `if np.isnan(C).any(): np.fill_diagonal(C, 1);
C = np.nan_to_num(C)`; otherwise the matrix is kept as is. -/
noncomputable def correlationNanFix (g : ℕ) (Copt : NMat) : RMat :=
  if ∃ i ∈ range g, ∃ j ∈ range g, (Copt i j).isNone = true then
    fun i j => if i = j then 1 else (Copt i j).getD 0
  else
    fun i j => (Copt i j).getD 0

/-- The in-memory expression table: gene labels of its rows, sample count,
and values. -/
structure ExprData where
  genes : List ℕ
  nsamples : ℕ
  values : RMat

/-- The two result shapes of `__init__`: the co-expression matrix returned
when no motif prior is supplied, or the message-passing network. -/
inductive PandaOutput where
  | corrNetwork : RMat → PandaOutput
  | pandaNetwork : RMat → PandaOutput

/-- Union-mode `self.gene_names` (`processData` lines 261-262 and 298):
with no expression data the expression genes default to the motif genes. -/
def pipelineGeneNames (motif_data : Option (List Triple))
    (expr : Option ExprData) : List ℕ :=
  let motif_genes := match motif_data with | none => [] | some md => motifGenes md
  let expression_genes := match expr with | none => motif_genes | some e => e.genes
  sortedDedup (motif_genes ++ expression_genes)

/-- Union-mode `self.unique_tfs` (lines 285 and 299): with no PPI data the
PPI TFs default to the motif TFs. -/
def pipelineUniqueTfs (motif_data ppi_data : Option (List Triple)) : List ℕ :=
  let motif_tfs := match motif_data with | none => [] | some md => motifTfs md
  let ppi_tfs := match ppi_data with | none => motif_tfs | some pd => ppiTfs pd
  sortedDedup (ppi_tfs ++ motif_tfs)

/-- `self.correlation_matrix` (lines 315-332): identity when no expression
data, otherwise `np.corrcoef` of the realigned expression with the NaN fix. -/
noncomputable def pipelineCorrelation (motif_data : Option (List Triple))
    (expr : Option ExprData) : RMat :=
  let gene_names := pipelineGeneNames motif_data expr
  match expr with
  | none => identityMat
  | some e =>
    let aligned :=
      if gene_names.length ≠ 0 then alignExpression gene_names e.genes e.values
      else e.values
    correlationNanFix gene_names.length (fun i j => corrEntry e.nsamples aligned i j)

/-- Replace NaN entries by 0 to hand a plain real matrix to the loop; for
non-degenerate inputs the normalizer leaves no NaN (see the claim about
the three-tier fallback), so this is the identity there. -/
def stripNaN (A : NMat) : RMat := fun i j => (A i j).getD 0

/-- `Panda.__init__` (union mode, CPU): process the three inputs; when the
motif prior is absent, short-circuit with the correlation matrix (lines
341-349 and 98-99); otherwise normalize the three matrices and run
`panda_loop`, whose motif component is the resulting network. -/
noncomputable def panda_init (fuel : ℕ) (alpha : ℝ) (expr : Option ExprData)
    (motif_data ppi_data : Option (List Triple)) : Option PandaOutput :=
  let gene_names := pipelineGeneNames motif_data expr
  let unique_tfs := pipelineUniqueTfs motif_data ppi_data
  let correlation := pipelineCorrelation motif_data expr
  match motif_data with
  | none => some (PandaOutput.corrNetwork correlation)
  | some md =>
    let T := unique_tfs.length
    let G := gene_names.length
    let M0 := motif_matrix_unnormalized unique_tfs gene_names md
    let P0 := match ppi_data with
      | none => identityMat
      | some pd => ppi_matrix_build unique_tfs pd
    let Cn := stripNaN (_normalize_network G G correlation)
    let Mn := stripNaN (_normalize_network T G M0)
    let Pn := stripNaN (_normalize_network T T P0)
    (panda_loop T G alpha fuel Mn Pn Cn).map (fun r => PandaOutput.pandaNetwork r.1)

/-- `tfs = np.tile(self.unique_tfs, (len(gene_names), 1)).flatten()`: the
TF label column of the edge-list export. -/
def exportTfsCol (tfs : List ℕ) (G : ℕ) : List ℕ :=
  (List.range G).flatMap (fun _ => tfs)

/-- `genes = np.repeat(self.gene_names, self.num_tfs)`: the gene label
column. -/
def exportGenesCol (genes : List ℕ) (T : ℕ) : List ℕ :=
  genes.flatMap (fun g => List.replicate T g)

/-- `A.flatten(order='F')` of a `T × G` matrix: column-major flattening. -/
def flattenF (T G : ℕ) (A : RMat) : List ℝ :=
  (List.range G).flatMap (fun j => (List.range T).map (fun i => A i j))

/-- `self.export_panda_results = pd.DataFrame({'tf': tfs, 'gene': genes,
'motif': motif, 'force': force})`, one 4-tuple per row. -/
def export_panda_results (tfs genes : List ℕ) (M0 F : RMat) :
    List (ℕ × ℕ × ℝ × ℝ) :=
  List.zip (exportTfsCol tfs genes.length)
    (List.zip (exportGenesCol genes tfs.length)
      (List.zip (flattenF tfs.length genes.length M0)
        (flattenF tfs.length genes.length F)))

/-- Length of a flat-map whose blocks all have length `T`. -/
theorem flatMap_length_const {α β : Type} (l : List α) (f : α → List β) (T : ℕ)
    (hf : ∀ a, (f a).length = T) : (l.flatMap f).length = l.length * T := by
  induction l with
  | nil => simp
  | cons a l ih => simp [hf, ih, Nat.succ_mul, Nat.add_comm]

/-- Indexing a flat-map of constant-length blocks: position `j * T + i`
reads entry `i` of block `j`. -/
theorem flatMap_getElem_block {α β : Type} (l : List α) (f : α → List β) (T : ℕ)
    (hf : ∀ a, (f a).length = T) :
    ∀ (j i : ℕ), ∀ hj : j < l.length, i < T →
      (l.flatMap f)[j * T + i]? = (f (l.get ⟨j, hj⟩))[i]? := by
  induction l with
  | nil => intro j i hj _; exact absurd hj (Nat.not_lt_zero j)
  | cons a l ih =>
    intro j i hj hi
    rw [List.flatMap_cons]
    cases j with
    | zero =>
      have hlen : i < (f a).length := by rw [hf a]; exact hi
      rw [Nat.zero_mul, Nat.zero_add, List.getElem?_append_left hlen]
      rfl
    | succ j' =>
      have hidx : (j' + 1) * T + i = (f a).length + (j' * T + i) := by
        rw [hf a, Nat.succ_mul]; omega
      rw [hidx]
      simp only [List.getElem?_append_right (Nat.le_add_right _ _),
        Nat.add_sub_cancel_left]
      exact ih j' i (Nat.lt_of_succ_lt_succ hj) hi

/-- Claim C9: the edge-list export has exactly one row per (TF, gene) pair:
it has `num_tfs * num_genes` rows, and the row at position
`j * num_tfs + i` (TF index varying fastest within each gene block —
column-major flattening) carries TF label `i`, gene label `j`, the
unnormalized motif-prior weight `M0 i j` and the final force `F i j`. -/
theorem export_edge_list_spec (tfs genes : List ℕ) (M0 F : RMat)
    (j : Fin genes.length) (i : Fin tfs.length) :
    (export_panda_results tfs genes M0 F).length = tfs.length * genes.length ∧
    (export_panda_results tfs genes M0 F)[(j : ℕ) * tfs.length + (i : ℕ)]? =
      some (tfs.get i, genes.get j, M0 i j, F i j) := by
  have htfs : ∀ jj : ℕ, ∀ hj : jj < (List.range genes.length).length, ∀ ii : ℕ,
      ii < tfs.length → (exportTfsCol tfs genes.length)[jj * tfs.length + ii]? = tfs[ii]? := by
    intro jj hj ii hi
    exact flatMap_getElem_block (List.range genes.length) (fun _ => tfs) tfs.length
      (fun _ => rfl) jj ii hj hi
  have hgenes : ∀ jj : ℕ, ∀ hj : jj < genes.length, ∀ ii : ℕ, ii < tfs.length →
      (exportGenesCol genes tfs.length)[jj * tfs.length + ii]? =
        some (genes.get ⟨jj, hj⟩) := by
    intro jj hj ii hi
    unfold exportGenesCol
    rw [flatMap_getElem_block genes (fun g => List.replicate tfs.length g) tfs.length
      (fun _ => List.length_replicate _ _) jj ii hj hi]
    simp [List.getElem?_replicate, hi]
  have hflat : ∀ (A : RMat), ∀ jj : ℕ, ∀ hj : jj < genes.length, ∀ ii : ℕ,
      ii < tfs.length →
      (flattenF tfs.length genes.length A)[jj * tfs.length + ii]? = some (A ii jj) := by
    intro A jj hj ii hi
    have hj' : jj < (List.range genes.length).length := by simpa using hj
    unfold flattenF
    rw [flatMap_getElem_block (List.range genes.length)
      (fun jx => (List.range tfs.length).map (fun ix => A ix jx)) tfs.length
      (by intro a; simp) jj ii hj' hi]
    have : (List.range genes.length).get ⟨jj, hj'⟩ = jj := by
      simp [List.get_eq_getElem, List.getElem_range]
    rw [this]
    simp [List.getElem?_map, List.getElem?_range, hi]
  have lTfs : (exportTfsCol tfs genes.length).length = genes.length * tfs.length := by
    unfold exportTfsCol
    rw [flatMap_length_const _ _ tfs.length (fun _ => rfl), List.length_range]
  have lGenes : (exportGenesCol genes tfs.length).length = genes.length * tfs.length := by
    unfold exportGenesCol
    rw [flatMap_length_const _ _ tfs.length (fun _ => List.length_replicate _ _)]
  have lFlat : ∀ A : RMat,
      (flattenF tfs.length genes.length A).length = genes.length * tfs.length := by
    intro A
    unfold flattenF
    rw [flatMap_length_const _ _ tfs.length (by intro a; simp), List.length_range]
  constructor
  · unfold export_panda_results
    rw [List.length_zip, List.length_zip, List.length_zip, lTfs, lGenes,
      lFlat M0, lFlat F]
    simp [Nat.mul_comm]
  · have hj : (j : ℕ) < genes.length := j.isLt
    have hj' : (j : ℕ) < (List.range genes.length).length := by
      rw [List.length_range]; exact hj
    have hi : (i : ℕ) < tfs.length := i.isLt
    unfold export_panda_results
    rw [List.getElem?_zip_eq_some]
    refine ⟨by rw [htfs _ hj' _ hi]; simp [List.getElem?_eq_getElem hi, List.get_eq_getElem], ?_⟩
    rw [List.getElem?_zip_eq_some]
    refine ⟨by rw [hgenes _ hj _ hi], ?_⟩
    rw [List.getElem?_zip_eq_some]
    exact ⟨hflat M0 _ hj _ hi, hflat F _ hj _ hi⟩

/-- Modelled from the spec's words, for comparison with the code: the
sorted, deduplicated union of two label lists, formed as a finite-set
union. -/
def specSortedUnion (a b : List ℕ) : List ℕ :=
  Finset.sort (· ≤ ·) (a.toFinset ∪ b.toFinset)

/-- Sorting the distinct elements does not change the underlying set. -/
theorem sortedDedup_toFinset (l : List ℕ) :
    (sortedDedup l).toFinset = l.toFinset := by
  simp [sortedDedup]

/-- Claim C5: in union mode the canonical gene sequence is the sorted,
deduplicated union of the motif-prior gene labels and the expression gene
labels, and the canonical TF sequence is the sorted, deduplicated union of
the PPI TF labels (both PPI columns) and the motif TF labels. -/
theorem union_alignment_spec (md pd : List Triple) (expressionGenes : List ℕ) :
    unionGeneNames md expressionGenes =
      specSortedUnion (md.map (fun t => t.2.1)) expressionGenes ∧
    unionUniqueTfs pd md =
      specSortedUnion (pd.map (fun t => t.1) ++ pd.map (fun t => t.2.1))
        (md.map (fun t => t.1)) := by
  constructor
  · unfold unionGeneNames motifGenes specSortedUnion sortedDedup
    congr 1
    rw [List.toFinset_append, Finset.sort_toFinset]
  · unfold unionUniqueTfs ppiTfs motifTfs specSortedUnion sortedDedup
    congr 1
    rw [List.toFinset_append, Finset.sort_toFinset, Finset.sort_toFinset,
      List.toFinset_append]

/-- Claim C6: a triple whose row label is absent from the canonical TF
sequence is not dropped and raises nothing: its label is defensively mapped
to index 0, its weight lands in row 0 of the motif matrix (at the column of
its gene label), and, via the symmetric second write, in column 0 of the
PPI matrix. -/
theorem unmatched_label_written_at_index0 (tfs genes : List ℕ)
    (ds : List Triple) (a b : ℕ) (w : ℝ) (ha : a ∉ tfs) :
    idxGet0 tfs a = 0 ∧
    (b ∉ genes → idxGet0 genes b = 0) ∧
    motif_matrix_unnormalized tfs genes (ds ++ [(a, b, w)]) 0 (idxGet0 genes b) = w ∧
    ppi_matrix_build tfs (ds ++ [(a, b, w)]) (idxGet0 tfs b) 0 = w := by
  have hidx : idxGet0 tfs a = 0 := by simp [idxGet0, ha]
  refine ⟨hidx, fun hb => by simp [idxGet0, hb], ?_, ?_⟩
  · unfold motif_matrix_unnormalized
    rw [List.foldl_append]
    simp [writeEntry, hidx]
  · unfold ppi_matrix_build
    rw [List.foldl_append]
    simp [writeEntry, hidx]

/-- Claim C7: with no motif prior the convergence loop is never invoked —
for every fuel budget the pipeline returns, normally and not as an error,
the co-expression (correlation) matrix itself. -/
theorem no_motif_short_circuit (fuel : ℕ) (alpha : ℝ) (expr : Option ExprData)
    (ppi_data : Option (List Triple)) :
    panda_init fuel alpha expr none ppi_data =
      some (PandaOutput.corrNetwork (pipelineCorrelation none expr)) := rfl

/-- Unfolding `loopGo` when the check fails: the loop exits with the
current state, regardless of remaining fuel. -/
theorem loopGo_exit (T G : ℕ) (alpha : ℝ) (fuel : ℕ) (h : ℝ) (step : ℕ)
    (M P C : RMat) (hh : ¬ h > 0.001) :
    loopGo T G alpha fuel h step M P C = some (M, P, C) := by
  unfold loopGo
  rw [if_neg hh]

/-- Unfolding `loopGo` at zero fuel when the check holds. -/
theorem loopGo_zero (T G : ℕ) (alpha : ℝ) (h : ℝ) (step : ℕ)
    (M P C : RMat) (hh : h > 0.001) :
    loopGo T G alpha 0 h step M P C = none := by
  unfold loopGo
  rw [if_pos hh]

/-- Unfolding `loopGo` at positive fuel when the check holds: one body
pass, then the rest of the loop. -/
theorem loopGo_succ (T G : ℕ) (alpha : ℝ) (fuel : ℕ) (h : ℝ) (step : ℕ)
    (M P C : RMat) (hh : h > 0.001) :
    loopGo T G alpha (fuel + 1) h step M P C =
      loopGo T G alpha fuel (pandaBody T G alpha step M P C).1 (step + 1)
        (pandaBody T G alpha step M P C).2.1
        (pandaBody T G alpha step M P C).2.2.1
        (pandaBody T G alpha step M P C).2.2.2 := by
  conv_lhs => unfold loopGo
  rw [if_pos hh]

/-- Shifting the start of the iteration by one body pass. -/
theorem iterFrom_shift (T G : ℕ) (alpha : ℝ) (h : ℝ) (step : ℕ)
    (M P C : RMat) (k : ℕ) :
    iterFrom T G alpha h step M P C (k + 1) =
      iterFrom T G alpha (pandaBody T G alpha step M P C).1 (step + 1)
        (pandaBody T G alpha step M P C).2.1
        (pandaBody T G alpha step M P C).2.2.1
        (pandaBody T G alpha step M P C).2.2.2 k := by
  induction k with
  | zero => rfl
  | succ k ih =>
    rw [show k + 1 + 1 = (k + 1) + 1 from rfl]
    conv_lhs => unfold iterFrom
    conv_rhs => unfold iterFrom
    rw [ih]

/-- The fuel-indexed loop returns `none` exactly when the metric stays
above the tolerance at every check it performs. -/
theorem loopGo_none_iff (T G : ℕ) (alpha : ℝ) :
    ∀ (fuel : ℕ) (h : ℝ) (step : ℕ) (M P C : RMat),
      loopGo T G alpha fuel h step M P C = none ↔
        ∀ k, k ≤ fuel → (iterFrom T G alpha h step M P C k).1 > 0.001 := by
  intro fuel
  induction fuel with
  | zero =>
    intro h step M P C
    by_cases hh : h > 0.001
    · rw [loopGo_zero T G alpha h step M P C hh]
      simp only [true_iff]
      intro k hk
      rw [Nat.le_zero.mp hk]
      exact hh
    · rw [loopGo_exit T G alpha 0 h step M P C hh]
      simp only [reduceCtorEq, false_iff, not_forall]
      exact ⟨0, le_refl 0, hh⟩
  | succ fuel ih =>
    intro h step M P C
    by_cases hh : h > 0.001
    · rw [loopGo_succ T G alpha fuel h step M P C hh, ih]
      constructor
      · intro hall k hk
        cases k with
        | zero => exact hh
        | succ k' =>
          rw [iterFrom_shift]
          exact hall k' (Nat.lt_succ_iff.mp hk)
      · intro hall k hk
        have := hall (k + 1) (Nat.succ_le_succ hk)
        rw [iterFrom_shift] at this
        exact this
    · rw [loopGo_exit T G alpha (fuel + 1) h step M P C hh]
      simp only [reduceCtorEq, false_iff, not_forall]
      exact ⟨0, Nat.zero_le _, hh⟩

/-- Claim C8: the convergence loop's only exit condition is the metric
dropping to `≤ 0.001`; there is no iteration cap, so for every fuel bound
the loop fails to terminate within that bound exactly when the metric
exceeds the tolerance at every check — an input whose metric stays above
the tolerance forever loops forever. -/
theorem loop_only_exit_is_convergence (T G : ℕ) (alpha : ℝ) (M P C : RMat)
    (fuel : ℕ) :
    panda_loop T G alpha fuel M P C = none ↔
      staysAbove T G alpha M P C fuel := by
  unfold panda_loop staysAbove hammingTrace loopIter
  exact loopGo_none_iff T G alpha fuel 1 0 M P C

/-- The metric component returned by one pass of the loop body is the mean
absolute difference between the motif matrix and the consensus update. -/
theorem pandaBody_fst (T G : ℕ) (alpha : ℝ) (step : ℕ) (M P C : RMat) :
    (pandaBody T G alpha step M P C).1 =
      meanAbsDiff T G M (consensusW T G P M C) := by
  unfold pandaBody
  by_cases hc : meanAbsDiff T G M (consensusW T G P M C) > 0.001 <;> simp [hc]

/-- Claim C1: on the terminal pass (metric `≤ 0.001`) the PPI and
correlation matrices are left exactly as they were after the previous
pass, while the motif matrix is still blended to
`(1 - alpha) * M + alpha * W` on that same pass. -/
theorem terminal_pass_frame (T G : ℕ) (alpha : ℝ) (step : ℕ) (M P C : RMat)
    (h : (pandaBody T G alpha step M P C).1 ≤ 0.001) :
    (pandaBody T G alpha step M P C).2.2.1 = P ∧
    (pandaBody T G alpha step M P C).2.2.2 = C ∧
    (pandaBody T G alpha step M P C).2.1 =
      blend alpha M (consensusW T G P M C) := by
  rw [pandaBody_fst] at h
  have hc : ¬ meanAbsDiff T G M (consensusW T G P M C) > 0.001 := not_lt.mpr h
  unfold pandaBody
  simp [hc]

/-- Claim C10: the convergence metric is initialized to 1, so the loop body
always executes at least once: with zero fuel the loop cannot have exited,
and whenever the very first computed metric is already `≤ 0.001` the
returned motif matrix is still the blend `(1 - alpha) * M + alpha * W`, not
the unmodified input. -/
theorem loop_body_runs_at_least_once (T G : ℕ) (alpha : ℝ) (M P C : RMat)
    (h1 : meanAbsDiff T G M (consensusW T G P M C) ≤ 0.001) :
    panda_loop T G alpha 0 M P C = none ∧
    ∀ fuel : ℕ, panda_loop T G alpha (fuel + 1) M P C =
      some (blend alpha M (consensusW T G P M C), P, C) := by
  have hng : ¬ meanAbsDiff T G M (consensusW T G P M C) > 0.001 := not_lt.mpr h1
  have hone : (1 : ℝ) > 0.001 := by norm_num
  have hbody : pandaBody T G alpha 0 M P C =
      (meanAbsDiff T G M (consensusW T G P M C),
        blend alpha M (consensusW T G P M C), P, C) := by
    unfold pandaBody
    simp [hng]
  constructor
  · exact loopGo_zero T G alpha 1 0 M P C hone
  · intro fuel
    unfold panda_loop
    rw [loopGo_succ T G alpha fuel 1 0 M P C hone, hbody]
    exact loopGo_exit T G alpha fuel _ 1 _ _ _ hng

/-- Counterexample to claim C2 as stated: for the 1-row matrix with the
single entry 2 the two (identical) row vectors have positive norm, yet the
self-similarity coefficient is `4 / sqrt(4 + 4 - 4) = 2`, not 1. -/
theorem tanimoto_identical_not_one :
    t_function_self 1 (fun _ _ => 2) 0 0 = 2 ∧ (2 : ℝ) ≠ 1 := by
  constructor
  · unfold t_function_self
    rw [Finset.sum_range_one, Finset.sum_range_one]
    show (2 : ℝ) * 2 / Real.sqrt ((2 : ℝ) ^ 2 + (2 : ℝ) ^ 2 - |(2 : ℝ) * 2|) = 2
    rw [show (2 : ℝ) ^ 2 + (2 : ℝ) ^ 2 - |(2 : ℝ) * 2| = 2 ^ 2 by norm_num]
    rw [Real.sqrt_sq (by norm_num : (0 : ℝ) ≤ 2)]
    norm_num
  · norm_num

/-- Claim C2 (amended): in self-similarity mode, for two identical row
vectors of positive norm the coefficient equals the Euclidean norm
`sqrt(sum u^2)` of the row (hence 1 exactly when the norm is 1), and for
two orthogonal rows of positive norm it equals 0. -/
theorem tanimoto_kernel_values (k : ℕ) (x : RMat) :
    (∀ i j : ℕ, (∀ t, t < k → x i t = x j t) →
      0 < ∑ t ∈ range k, x i t ^ 2 →
      t_function_self k x i j = Real.sqrt (∑ t ∈ range k, x i t ^ 2)) ∧
    (∀ i j : ℕ, (∑ t ∈ range k, x i t * x j t) = 0 →
      0 < ∑ t ∈ range k, x i t ^ 2 →
      0 < ∑ t ∈ range k, x j t ^ 2 →
      t_function_self k x i j = 0) := by
  constructor
  · intro i j heq hpos
    have hdot : ∑ t ∈ range k, x i t * x j t = ∑ t ∈ range k, x i t ^ 2 :=
      Finset.sum_congr rfl fun t ht => by
        rw [← heq t (Finset.mem_range.mp ht)]; ring
    have hsq : ∑ t ∈ range k, x j t ^ 2 = ∑ t ∈ range k, x i t ^ 2 :=
      Finset.sum_congr rfl fun t ht => by rw [← heq t (Finset.mem_range.mp ht)]
    unfold t_function_self
    rw [hdot, hsq, abs_of_nonneg hpos.le,
      show (∑ t ∈ range k, x i t ^ 2) + (∑ t ∈ range k, x i t ^ 2) -
          (∑ t ∈ range k, x i t ^ 2) = ∑ t ∈ range k, x i t ^ 2 by ring]
    exact Real.div_sqrt
  · intro i j hdot _ _
    unfold t_function_self
    rw [hdot]
    exact zero_div _

/-- Witness for the amended C2 at the 2 × 2 identity matrix: rows 0 and 0
are identical with norm 1 and give coefficient `sqrt 1 = 1`; rows 0 and 1
are orthogonal and non-zero and give coefficient 0. -/
theorem tanimoto_kernel_values_witness :
    t_function_self 2 identityMat 0 0 = 1 ∧ t_function_self 2 identityMat 0 1 = 0 := by
  have h := tanimoto_kernel_values 2 identityMat
  have hsum : (∑ t ∈ range 2, identityMat 0 t ^ 2) = 1 := by
    rw [Finset.sum_range_succ, Finset.sum_range_one]
    norm_num [identityMat]
  have hsum1 : (∑ t ∈ range 2, identityMat 1 t ^ 2) = 1 := by
    rw [Finset.sum_range_succ, Finset.sum_range_one]
    norm_num [identityMat]
  constructor
  · have := h.1 0 0 (fun t _ => rfl) (by rw [hsum]; norm_num)
    rw [this, hsum, Real.sqrt_one]
  · refine h.2 0 1 ?_ (by rw [hsum]; norm_num) (by rw [hsum1]; norm_num)
    rw [Finset.sum_range_succ, Finset.sum_range_one]
    norm_num [identityMat]

/-- Claim C3: on a matrix without zero-variance rows or columns the
normalizer triggers no fallback: every output entry is exactly
`(column z-score + row z-score) / sqrt 2`, where for a square matrix the
row z-score is the transposed column z-score and otherwise it is the
independent row z-score. -/
theorem normalize_no_fallback (m n : ℕ) (x : RMat)
    (hcol : ∀ j, j < n → colStd m x j ≠ 0)
    (hrow : ∀ i, i < m → rowStd n x i ≠ 0) :
    ∀ i j, i < m → j < n →
      _normalize_network m n x i j =
        some ((zscoreCol m x i j +
          (if m = n then zscoreCol m x j i else zscoreRow n x i j)) /
            Real.sqrt 2) := by
  intro i j hi hj
  have hnc : norm_col m x i j = some (zscoreCol m x i j) := by
    unfold norm_col ofDiv zscoreCol
    rw [if_neg (hcol j hj)]
  have hnr : norm_row m n x i j =
      some (if m = n then zscoreCol m x j i else zscoreRow n x i j) := by
    unfold norm_row
    by_cases hmn : m = n
    · rw [if_pos hmn, if_pos hmn]
      unfold norm_col ofDiv zscoreCol
      rw [if_neg (hcol i (hmn ▸ hi))]
    · rw [if_neg hmn, if_neg hmn]
      unfold norm_row_indep ofDiv zscoreRow
      rw [if_neg (hrow i hi)]
  unfold _normalize_network
  rw [hnc, hnr]
  simp [optAdd, optDivByC]

/-- Witness for C3 at the square matrix `[[0,1],[1,0]]`: every row and
column has standard deviation `sqrt(1/4) = 1/2 ≠ 0` and the entry (0,1)
equals the direct two-sided z-score combination. -/
theorem normalize_no_fallback_witness :
    _normalize_network 2 2 (fun i j => if i = j then (0 : ℝ) else 1) 0 1 =
      some ((zscoreCol 2 (fun i j => if i = j then (0 : ℝ) else 1) 0 1 +
        zscoreCol 2 (fun i j => if i = j then (0 : ℝ) else 1) 1 0) /
          Real.sqrt 2) := by
  have hcol : ∀ j, j < 2 →
      colStd 2 (fun i j => if i = j then (0 : ℝ) else 1) j ≠ 0 := by
    intro j hj
    unfold colStd colMean
    rw [Finset.sum_range_succ, Finset.sum_range_one,
      Finset.sum_range_succ, Finset.sum_range_one]
    interval_cases j <;> norm_num
  have hrow : ∀ i, i < 2 →
      rowStd 2 (fun i j => if i = j then (0 : ℝ) else 1) i ≠ 0 := by
    intro i hi
    unfold rowStd rowMean
    rw [Finset.sum_range_succ, Finset.sum_range_one,
      Finset.sum_range_succ, Finset.sum_range_one]
    interval_cases i <;> norm_num
  have := normalize_no_fallback 2 2 (fun i j => if i = j then (0 : ℝ) else 1)
    hcol hrow 0 1 (by norm_num) (by norm_num)
  simpa using this

/-- Claim C4 (amended): for every input matrix that is not globally
constant (nonzero whole-matrix standard deviation) the three-tier fallback
removes every NaN: no output entry of the normalizer is NaN. -/
theorem normalize_no_nan_of_nonconstant (m n : ℕ) (x : RMat)
    (htot : totalStd m n x ≠ 0) :
    ∀ i j, (_normalize_network m n x i j).isSome := by
  intro i j
  have hnt : ∃ a, norm_total m n x i j = some a := by
    unfold norm_total ofDiv
    rw [if_neg htot]
    exact ⟨_, rfl⟩
  obtain ⟨a, ha⟩ := hnt
  unfold _normalize_network
  rw [ha]
  cases hcv : norm_col m x i j <;> cases hrv : norm_row m n x i j <;>
    simp [hcv, hrv, optAdd, optDivByC, optScale]

/-- Counterexample to claim C4 as stated: on the constant 2 × 2 all-ones
matrix every column and row is degenerate and the whole-matrix z-score is
itself NaN, so the third fallback tier still produces NaN in the output. -/
theorem normalize_constant_matrix_nan :
    _normalize_network 2 2 (fun _ _ => (1 : ℝ)) 0 0 = none := by
  have hcs : colStd 2 (fun _ _ => (1 : ℝ)) 0 = 0 := by
    unfold colStd colMean
    norm_num [Finset.sum_range_succ, Finset.sum_range_one]
  have hts : totalStd 2 2 (fun _ _ => (1 : ℝ)) = 0 := by
    unfold totalStd totalMean
    norm_num [Finset.sum_range_succ, Finset.sum_range_one]
  have hnc : norm_col 2 (fun _ _ => (1 : ℝ)) 0 0 = none := by
    unfold norm_col ofDiv
    rw [hcs]
    simp
  have hnr : norm_row 2 2 (fun _ _ => (1 : ℝ)) 0 0 = none := by
    unfold norm_row
    rw [if_pos rfl]
    exact hnc
  have hnt : norm_total 2 2 (fun _ _ => (1 : ℝ)) 0 0 = none := by
    unfold norm_total ofDiv
    rw [hts]
    simp
  unfold _normalize_network
  rw [hnc, hnr, hnt]
  simp [optScale, optDivByC]

/-- Witness for the amended C4 at the (non-constant) 2 × 2 identity
matrix: its whole-matrix standard deviation is nonzero and the normalized
entry (0, 1) is not NaN. -/
theorem normalize_no_nan_witness :
    totalStd 2 2 identityMat ≠ 0 ∧
    (_normalize_network 2 2 identityMat 0 1).isSome := by
  have htot : totalStd 2 2 identityMat ≠ 0 := by
    unfold totalStd
    refine ne_of_gt (Real.sqrt_pos.mpr ?_)
    unfold totalMean
    simp only [Finset.sum_range_succ, Finset.sum_range_one, identityMat]
    norm_num
  exact ⟨htot, normalize_no_nan_of_nonconstant 2 2 identityMat htot 0 1⟩

/-- On the all-ones 1 × 1 input the very first consensus update W equals
the motif matrix, so the first computed metric is 0. -/
theorem ones_consensus_hamming :
    meanAbsDiff 1 1 (fun _ _ => (1 : ℝ))
      (consensusW 1 1 (fun _ _ => 1) (fun _ _ => 1) (fun _ _ => 1)) = 0 := by
  unfold meanAbsDiff consensusW t_function_cross
  norm_num [Finset.sum_range_one]

/-- Witness for C1 at the all-ones 1 × 1 input with `alpha = 1/10`: the
first pass is terminal (metric 0 ≤ 0.001), the PPI and correlation
matrices come back unchanged and the motif matrix is still blended. -/
theorem terminal_pass_frame_witness :
    (pandaBody 1 1 (1/10) 0 (fun _ _ => (1 : ℝ)) (fun _ _ => 1)
      (fun _ _ => 1)).2.2.1 = (fun _ _ => (1 : ℝ)) ∧
    (pandaBody 1 1 (1/10) 0 (fun _ _ => (1 : ℝ)) (fun _ _ => 1)
      (fun _ _ => 1)).2.2.2 = (fun _ _ => (1 : ℝ)) ∧
    (pandaBody 1 1 (1/10) 0 (fun _ _ => (1 : ℝ)) (fun _ _ => 1)
      (fun _ _ => 1)).2.1 =
      blend (1/10) (fun _ _ => 1)
        (consensusW 1 1 (fun _ _ => 1) (fun _ _ => 1) (fun _ _ => 1)) :=
  terminal_pass_frame 1 1 (1/10) 0 (fun _ _ => 1) (fun _ _ => 1) (fun _ _ => 1)
    (by rw [pandaBody_fst, ones_consensus_hamming]; norm_num)

/-- Witness for C10 at the all-ones 1 × 1 input: with zero fuel the loop
has not exited, and with one unit of fuel it exits right after the first
(terminal) pass with the blended — not the raw — motif matrix. -/
theorem loop_body_runs_at_least_once_witness :
    panda_loop 1 1 (1/10) 0 (fun _ _ => (1 : ℝ)) (fun _ _ => 1)
      (fun _ _ => 1) = none ∧
    panda_loop 1 1 (1/10) 1 (fun _ _ => (1 : ℝ)) (fun _ _ => 1)
      (fun _ _ => 1) =
      some (blend (1/10) (fun _ _ => 1)
        (consensusW 1 1 (fun _ _ => 1) (fun _ _ => 1) (fun _ _ => 1)),
        fun _ _ => 1, fun _ _ => 1) := by
  have h := loop_body_runs_at_least_once 1 1 (1/10) (fun _ _ => 1)
    (fun _ _ => 1) (fun _ _ => 1)
    (by rw [ones_consensus_hamming]; norm_num)
  exact ⟨h.1, h.2 0⟩

/-- Witness for C6: canonical TFs `[5]`, genes `[7]`, one triple
`(3, 9, 2)` whose labels are both unknown; its weight lands at row 0 of
the motif matrix and column 0 of the PPI matrix. -/
theorem unmatched_label_witness :
    idxGet0 [5] 3 = 0 ∧
    idxGet0 [7] 9 = 0 ∧
    motif_matrix_unnormalized [5] [7] [(3, 9, 2)] 0 (idxGet0 [7] 9) = 2 ∧
    ppi_matrix_build [5] [(3, 9, 2)] (idxGet0 [5] 9) 0 = 2 := by
  have h := unmatched_label_written_at_index0 [5] [7] [] 3 9 2 (by decide)
  exact ⟨h.1, h.2.1 (by decide), h.2.2.1, h.2.2.2⟩
